import Mathlib

/-
Verification development for the go-file-splitter repository.

The repository's comment-attribution and declaration-partitioning engine is
shallowly embedded below.  Go strings are modelled as `List Char` (Go
identifiers in this code base are ASCII; the `unicode.IsLower` / `IsUpper`
tables are reproduced exactly on the Latin-1 range, which covers every value
the code can produce from a byte).  Go `token.Pos` values are modelled as
`Int`.  AST node identity (Go pointer equality) is modelled by stable integer
ids (`cid` for comment groups, `fid`/`gid` for declarations), assigned
uniquely within one parse.
-/

namespace GoSplit

/-- GoStr abbreviates the model of a Go string: its list of characters. -/
abbrev GoStr := List Char

/-- Fragment of Go's `unicode.IsLower` on the Latin-1 range (the code only
applies it to a single byte cast to a rune, so this table is exact there):
a-z, micro sign, and the lowercase Latin-1 letters. -/
def unicodeIsLower (c : Char) : Bool :=
  (decide (0x61 ≤ c.toNat) && decide (c.toNat ≤ 0x7A)) ||
  decide (c.toNat = 0xB5) ||
  (decide (0xDF ≤ c.toNat) && decide (c.toNat ≤ 0xF6)) ||
  (decide (0xF8 ≤ c.toNat) && decide (c.toNat ≤ 0xFF))

/-- Fragment of Go's `unicode.IsUpper` on the Latin-1 range: A-Z and the
uppercase Latin-1 letters. -/
def unicodeIsUpper (c : Char) : Bool :=
  (decide (0x41 ≤ c.toNat) && decide (c.toNat ≤ 0x5A)) ||
  (decide (0xC0 ≤ c.toNat) && decide (c.toNat ≤ 0xD6)) ||
  (decide (0xD8 ≤ c.toNat) && decide (c.toNat ≤ 0xDE))

/-- Go `unicode.ToLower` on the same Latin-1 fragment; other characters are
returned unchanged. -/
def unicodeToLower (c : Char) : Char :=
  if unicodeIsUpper c then Char.ofNat (c.toNat + 0x20) else c

/-- Go `unicode.ToUpper` on the same Latin-1 fragment; other characters are
returned unchanged. -/
def unicodeToUpper (c : Char) : Char :=
  if unicodeIsLower c && decide (c.toNat ≠ 0xB5) && decide (c.toNat ≠ 0xDF) &&
     decide (c.toNat ≠ 0xFF)
  then Char.ofNat (c.toNat - 0x20) else c

/-- Go `strings.HasPrefix`. -/
def goStartsWith (s pre : GoStr) : Bool := List.isPrefixOf pre s

/-- Go `strings.TrimPrefix`: removes `pre` from the front of `s` when present. -/
def goTrimFront (s pre : GoStr) : GoStr :=
  if List.isPrefixOf pre s then s.drop pre.length else s

/-- Go `strings.TrimLeft(s, "_")`. -/
def goTrimLeftUnderscores (s : GoStr) : GoStr := s.dropWhile (fun c => c == '_')

/-- Go `strings.ToLower` (Latin-1 fragment, characterwise). -/
def goToLower (s : GoStr) : GoStr := s.map unicodeToLower

/-- Go `strings.ToUpper` (Latin-1 fragment, characterwise). -/
def goToUpper (s : GoStr) : GoStr := s.map unicodeToUpper

/-- Go `strings.Contains`: `sub` occurs as a contiguous substring of `s`. -/
def goContains (s sub : GoStr) : Bool := decide (List.IsInfix sub s)

/-- Go `strings.Trim(v, quote)`: strips leading and trailing double-quote
characters (applied to an import path literal). -/
def goTrimQuotes (s : GoStr) : GoStr :=
  ((s.dropWhile (fun c => c == '"')).reverse.dropWhile (fun c => c == '"')).reverse

/-- Last segment of a slash-separated import path: Go
`parts := strings.Split(p, slash); parts[len(parts)-1]` (`Split` always
returns a non-empty list, so the default is never used). -/
def lastPathSegment (p : GoStr) : GoStr := (p.splitOn '/').getLastD []


/-- Name marker of a Go test function. -/
def testMarker : GoStr := "Test".toList

/-- Name marker of a Go benchmark function. -/
def benchmarkMarker : GoStr := "Benchmark".toList

/-- Name marker of a Go example function. -/
def exampleMarker : GoStr := "Example".toList

/-- Path and local name of the always-required testing package. -/
def testingPkg : GoStr := "testing".toList

/-- Short name of the testify assert package. -/
def assertName : GoStr := "assert".toList

/-- Short name of the testify require package. -/
def requireName : GoStr := "require".toList

/-- Short name of the testify suite package. -/
def suiteName : GoStr := "suite".toList

/-- Specific testify assert sub-path pattern. -/
def testifyAssertPath : GoStr := "testify/assert".toList

/-- Specific testify require sub-path pattern. -/
def testifyRequirePath : GoStr := "testify/require".toList

/-- Specific testify suite sub-path pattern. -/
def testifySuitePath : GoStr := "testify/suite".toList

/-- Generic testify path pattern of the group resolver variant. -/
def testifyPath : GoStr := "testify".toList

/-- Suffix appended to derived test file stems. -/
def testFileSuffix : GoStr := "_test.go".toList

/-- Disambiguation token prepended on collision with the original name. -/
def splittedMark : GoStr := "splitted_".toList

/-- Fallback stem of an empty remainder. -/
def testStem : GoStr := "test".toList

/-- CommentGroup models `*ast.CommentGroup`: an identity id plus the byte
positions `Pos()` and `End()`. -/
structure CommentGroup where
  cid : Nat
  pos : Int
  endPos : Int
deriving DecidableEq, Repr

/-- BlockStmt models a function body `*ast.BlockStmt` by its brace positions. -/
structure BlockStmt where
  lbrace : Int
  rbrace : Int
deriving DecidableEq, Repr

/-- Expr models the identifier-bearing fragment of Go expressions that
`ast.Inspect` visits inside a declaration: identifiers (with the flag of
whether the parser resolved them to an `ast.Object`), selector expressions
(whose `Sel` field is an always-unresolved identifier), and calls. -/
inductive Expr where
  | ident (name : GoStr) (objResolved : Bool)
  | selector (x : Expr) (sel : GoStr)
  | call (f : Expr) (args : List Expr)

/-- FuncDecl models `*ast.FuncDecl`: identity id, name, optional receiver
type name, positions, optional parser-attached doc comment (by comment id),
optional body, and the expression nodes `ast.Inspect` visits inside the
declaration (parameters and body; the declared name identifier is resolved by
the parser and never contributes a used package, so it is omitted). -/
structure FuncDecl where
  fid : Nat
  name : GoStr
  recv : Option GoStr
  pos : Int
  declEnd : Int
  doc : Option Nat
  body : Option BlockStmt
  exprs : List Expr

/-- GenTok models `token.Token` as used on `ast.GenDecl`. -/
inductive GenTok where
  | importTok
  | constTok
  | varTok
  | typeTok
deriving DecidableEq, Repr

/-- GenDecl models `*ast.GenDecl`. -/
structure GenDecl where
  gid : Nat
  tok : GenTok
  pos : Int
  declEnd : Int
  exprs : List Expr

/-- Decl models `ast.Decl` restricted to the shapes the splitter handles. -/
inductive Decl where
  | funcDecl (f : FuncDecl)
  | genDecl (g : GenDecl)

/-- ImportSpec models `*ast.ImportSpec`: optional alias and the quoted path
literal (`Path.Value`). -/
structure ImportSpec where
  specName : Option GoStr
  pathValue : GoStr
deriving DecidableEq, Repr

/-- File models `*ast.File` as the splitter uses it: package name, top-level
declarations, free-floating comment list, and import list. -/
structure File where
  pkgName : GoStr
  decls : List Decl
  comments : List CommentGroup
  imports : List ImportSpec

/-- Position of a declaration (`decl.Pos()`). -/
def Decl.declPos : Decl → Int
  | .funcDecl f => f.pos
  | .genDecl g => g.pos

/-- Whether a comment group lies inside a body:
`cg.Pos() >= body.Lbrace && cg.End() <= body.Rbrace`. -/
def insideBody (cg : CommentGroup) (b : BlockStmt) : Bool :=
  decide (b.lbrace ≤ cg.pos) && decide (cg.endPos ≤ b.rbrace)

/-- Whether a comment group lies inside a function's body, `false` when the
function has no body. -/
def insideFnBody (cg : CommentGroup) (fn : FuncDecl) : Bool :=
  match fn.body with
  | some b => insideBody cg b
  | none => false

/-- Whether a declaration list entry is the given function (Go pointer
equality `decl == fn`, modelled by the stable id). -/
def declIsFn (fn : FuncDecl) : Decl → Bool
  | .funcDecl f => f.fid == fn.fid
  | .genDecl _ => false

/-- End position used for the nearest preceding declaration in
`isFunctionSpecificComment`: a function declaration with a body contributes
its body's closing brace, any other declaration its `End()`. -/
def prevDeclEndOf : Decl → Int
  | .funcDecl f =>
      match f.body with
      | some b => b.rbrace
      | none => f.declEnd
  | .genDecl g => g.declEnd

/-- isFunctionSpecificComment from splitter.go: decides whether a standalone
comment group belongs to the function `fn`.  The backward scan for the
nearest preceding non-nil declaration always stops at index `fnIndex - 1` in
this model, because a parsed declaration list contains no nil entries.  The
proximity constant is the source's `token.Pos(50*80)`. -/
def isFunctionSpecificComment (cg : CommentGroup) (fn : FuncDecl)
    (allDecls : List Decl) : Bool :=
  if insideFnBody cg fn then false
  else if allDecls.any (fun d =>
      match d with
      | .funcDecl oF => (!(oF.fid == fn.fid)) && insideFnBody cg oF
      | .genDecl _ => false) then false
  else
    match allDecls.findIdx? (declIsFn fn) with
    | none => false
    | some fnIndex =>
      if decide (fn.pos ≤ cg.endPos) then false
      else
        let prevDecl : Option Decl :=
          if fnIndex = 0 then none else allDecls.get? (fnIndex - 1)
        let prevDeclEnd : Int :=
          match prevDecl with
          | some d => prevDeclEndOf d
          | none => 0
        if prevDecl.isSome &&
           decide (cg.pos - prevDeclEnd < fn.pos - cg.endPos) then false
        else
          decide (prevDeclEnd < cg.pos) &&
          decide (fn.pos - cg.endPos < (50 * 80 : Int))

/-- isTestSpecificComment is the test-splitting copy of the same predicate;
its source body is identical to `isFunctionSpecificComment`, so it is defined
as that function. -/
def isTestSpecificComment : CommentGroup → FuncDecl → List Decl → Bool :=
  isFunctionSpecificComment

/-- TestFunction models the `TestFunction` record built per extracted test:
name, the function declaration, its parser-attached doc comment (`fn.Doc`,
by comment id), the standalone comments attributed to it, the file's import
list, and the package name. -/
structure TestFunction where
  name : GoStr
  funcDecl : FuncDecl
  comments : Option Nat
  standaloneComments : List CommentGroup
  imports : List ImportSpec
  pkg : GoStr

/-- Name condition of the test extractor: the name after stripping the
`Test` marker and any leading underscores
(`strings.TrimLeft(strings.TrimPrefix(name, testMarker), "_")`). -/
def nameAfterTest (name : GoStr) : GoStr :=
  goTrimLeftUnderscores (goTrimFront name testMarker)

/-- Skip condition of the test extractor: the remainder is empty or starts
with a lowercase character
(`len(nameAfterTest) == 0 || unicode.IsLower(rune(nameAfterTest[0]))`;
the Go code reads the first byte, which coincides with the first character
for the ASCII identifiers it processes). -/
def remainderSkipped (name : GoStr) : Bool :=
  let r := nameAfterTest name
  decide (r.length = 0) || unicodeIsLower (r.headD (Char.ofNat 0))

/-- Standalone-comment collection of the test extractor: every file comment
that is not the function's doc comment and that `isTestSpecificComment`
attributes to it, in file order. -/
def standaloneCommentsFor (node : File) (fn : FuncDecl) : List CommentGroup :=
  node.comments.filter (fun cg =>
    (!(match fn.doc with
       | some d => d == cg.cid
       | none => false)) && isTestSpecificComment cg fn node.decls)

/-- Loop of `extractTestFunctions` (the `_test.go` splitter in part_004 /
splitter.go): walks the declaration list accumulating the selected test
functions in order and the `hasRemainingContent` flag. -/
def extractTestFunctionsLoop (node : File) : List Decl → List TestFunction × Bool
  | [] => ([], false)
  | d :: rest =>
    let acc := extractTestFunctionsLoop node rest
    match d with
    | .genDecl _ =>
        -- type declarations, constants, variables should be preserved
        (acc.1, true)
    | .funcDecl fn =>
        if (!(goStartsWith fn.name testMarker)) || fn.recv.isSome then
          -- non-test helper functions (no receiver) should be preserved;
          -- methods set nothing
          if fn.recv.isNone then (acc.1, true) else acc
        else if remainderSkipped fn.name then
          (acc.1, true)
        else
          ({ name := fn.name
             funcDecl := fn
             comments := fn.doc
             standaloneComments := standaloneCommentsFor node fn
             imports := node.imports
             pkg := node.pkgName } :: acc.1, acc.2)

/-- extractTestFunctions from the test splitter: the selected test functions
in declaration order together with the `hasRemainingContent` flag. -/
def extractTestFunctions (node : File) : List TestFunction × Bool :=
  extractTestFunctionsLoop node node.decls

/-- Loop of `removeExtractedTests` that filters the declaration list: every
`FuncDecl` whose name is among the extracted names is dropped, import
declarations are dropped (they are re-added from the used set), everything
else is kept and sets `hasRemainingContent`. -/
def removeExtractedTestsLoop (extractedNames : List GoStr) :
    List Decl → List Decl × Bool
  | [] => ([], false)
  | d :: rest =>
    let acc := removeExtractedTestsLoop extractedNames rest
    match d with
    | .funcDecl fn =>
        if extractedNames.contains fn.name then acc
        else (d :: acc.1, true)
    | .genDecl g =>
        if g.tok == GenTok.importTok then acc
        else (d :: acc.1, true)

mutual

/-- Collector of the used-package walk (`ast.Inspect` cases): a selector adds
its base identifier's name; a call adds its callee identifier's name; every
identifier the parser did not resolve to an object adds its own name (this is
why a `SelectorExpr`'s `Sel` field also lands in the set, and why the walk
over-approximates).  Duplicates are harmless: the Go map is only consulted
for membership. -/
def collectExprUsed : Expr → List GoStr
  | .ident n r => if (!r) && (!(n == [])) then [n] else []
  | .selector x sel =>
      (match x with
       | .ident n _ => [n]
       | _ => []) ++ collectExprUsed x ++
      (if sel == [] then [] else [sel])
  | .call f args =>
      (match f with
       | .ident n _ => [n]
       | _ => []) ++ collectExprUsed f ++ collectExprsUsed args

/-- Collector over a list of expression nodes. -/
def collectExprsUsed : List Expr → List GoStr
  | [] => []
  | e :: es => collectExprUsed e ++ collectExprsUsed es

end

/-- Used-package names inspected inside one declaration. -/
def declInspectUsed : Decl → List GoStr
  | .funcDecl f => collectExprsUsed f.exprs
  | .genDecl g => collectExprsUsed g.exprs

/-- Effective local package name of an import: the explicit alias when
present, else the last segment of the unquoted path. -/
def importLocalName (imp : ImportSpec) : GoStr :=
  match imp.specName with
  | some n => n
  | none => lastPathSegment (goTrimQuotes imp.pathValue)

/-- Filter switch of `findUsedImports` / `findUsedImportsInDecls` in the test
splitter (part_004): a `testing`-path import is included when `testing` is
used; otherwise an import is included when its local name is used, or when
its path contains the specific testify sub-path and the corresponding short
name was referenced. -/
def importIncludedSpecific (used : List GoStr) (imp : ImportSpec) : Bool :=
  let importPath := goTrimQuotes imp.pathValue
  let pkgName := importLocalName imp
  if importPath == testingPkg && used.contains testingPkg then
    true
  else if used.contains pkgName then true
  else if goContains importPath testifyAssertPath &&
      used.contains assertName then true
  else if goContains importPath testifyRequirePath &&
      used.contains requireName then true
  else if goContains importPath testifySuitePath &&
      used.contains suiteName then true
  else false

/-- findUsedImports of the test splitter (part_004): `testing` is always
marked used, the function subtree is walked, and the import list is filtered
in order. -/
def findUsedImports (fn : FuncDecl) (allImports : List ImportSpec) :
    List ImportSpec :=
  let usedPackages := testingPkg :: collectExprsUsed fn.exprs
  allImports.filter (importIncludedSpecific usedPackages)

/-- Test-style name check of `findUsedImportsInDecls`: the declaration is a
function whose name begins with `Test`, `Benchmark`, or `Example`. -/
def declIsTestStyle : Decl → Bool
  | .funcDecl fn =>
      goStartsWith fn.name testMarker ||
      goStartsWith fn.name benchmarkMarker ||
      goStartsWith fn.name exampleMarker
  | .genDecl _ => false

/-- findUsedImportsInDecls of the test splitter (part_004): `testing` is
marked used when any declaration is test-style, all declarations are walked,
and the import list is filtered in order with the specific testify patterns. -/
def findUsedImportsInDecls (decls : List Decl) (allImports : List ImportSpec) :
    List ImportSpec :=
  let usedPackages :=
    (if decls.any declIsTestStyle then [testingPkg] else []) ++
    decls.flatMap declInspectUsed
  allImports.filter (importIncludedSpecific usedPackages)

/-- shouldKeepComment from the test splitter: a comment is dropped when some
function declaration with an extracted name owns it — as its doc comment, as
a standalone comment attributed by `isTestSpecificComment`, or as an inline
comment inside its body; otherwise it is kept. -/
def shouldKeepComment (cg : CommentGroup) (node : File)
    (extractedNames : List GoStr) : Bool :=
  !(node.decls.any (fun d =>
    match d with
    | .funcDecl fn =>
        extractedNames.contains fn.name &&
        ((match fn.doc with
          | some dc => dc == cg.cid
          | none => false) ||
         isTestSpecificComment cg fn node.decls ||
         insideFnBody cg fn)
    | .genDecl _ => false))

/-- filterOrphanedComments from the test splitter: keeps exactly the comments
`shouldKeepComment` approves, in order. -/
def filterOrphanedComments (node : File) (extractedNames : List GoStr) :
    List CommentGroup :=
  node.comments.filter (fun cg => shouldKeepComment cg node extractedNames)

/-- FileAction models the observable effect of the orchestrator on the
original file. -/
inductive FileAction where
  | untouched
  | deletedFile
  | rewrittenFile (imports : List ImportSpec) (decls : List Decl)
      (comments : List CommentGroup)

/-- removeExtractedTests from the test splitter, as a pure function of the
parse result (the source re-parses the unchanged file, which yields the same
tree): filters the declarations, filters orphaned comments, deletes the file
when nothing remains, else rewrites it with the used imports re-added in
front of the kept declarations. -/
def removeExtractedTests (node : File) (extractedTests : List TestFunction) :
    FileAction :=
  let extractedNames := extractedTests.map (fun t => t.name)
  let filtered := removeExtractedTestsLoop extractedNames node.decls
  let newComments := filterOrphanedComments node extractedNames
  if (!filtered.2) || filtered.1.isEmpty then FileAction.deletedFile
  else
    FileAction.rewrittenFile (findUsedImportsInDecls filtered.1 node.imports)
      filtered.1 newComments

/-- processTestFile from the test splitter, reduced to its effect on the
original file: no selected tests leaves the file untouched; a false
`hasRemainingContent` flag deletes it immediately; otherwise
`removeExtractedTests` decides between deletion and rewriting. -/
def processTestFileAction (node : File) : FileAction :=
  let p := extractTestFunctions node
  if p.1.isEmpty then FileAction.untouched
  else if !p.2 then FileAction.deletedFile
  else removeExtractedTests node p.1

/-- Declarations selected for extraction, as declaration-list entries. -/
def extractedDecls (node : File) : List Decl :=
  ((extractTestFunctions node).1).map (fun t => Decl.funcDecl t.funcDecl)

/-- Declarations kept in the remaining file. -/
def remainingDecls (node : File) : List Decl :=
  (removeExtractedTestsLoop
    (((extractTestFunctions node).1).map (fun t => t.name)) node.decls).1

/-- Non-import declarations of a file (import declarations are bookkeeping
that the rewrite reconstructs from the used-import set). -/
def nonImportDecls (node : File) : List Decl :=
  node.decls.filter (fun d =>
    match d with
    | .genDecl g => !(g.tok == GenTok.importTok)
    | .funcDecl _ => true)

namespace P2

/-- findUsedImports of part_002: walks the function, marks `testing` used for
`Test`- or `Benchmark`-marked names, and keeps exactly the imports whose
local name is in the used set (no special cases). -/
def findUsedImports (fn : FuncDecl) (allImports : List ImportSpec) :
    List ImportSpec :=
  let walked := collectExprsUsed fn.exprs
  let usedPackages :=
    if goStartsWith fn.name testMarker ||
       goStartsWith fn.name benchmarkMarker
    then testingPkg :: walked else walked
  allImports.filter (fun imp => usedPackages.contains (importLocalName imp))

/-- findUsedImportsInDecls of part_002: marks `testing` used when any
declaration is test-style, walks all declarations, and keeps exactly the
imports whose local name is in the used set. -/
def findUsedImportsInDecls (decls : List Decl) (allImports : List ImportSpec) :
    List ImportSpec :=
  let usedPackages :=
    (if decls.any declIsTestStyle then [testingPkg] else []) ++
    decls.flatMap declInspectUsed
  allImports.filter (fun imp => usedPackages.contains (importLocalName imp))

end P2

namespace V1

/-- findUsedImports of splitter.go (first document, lines 913-968): walks the
function, marks `testing` used for `Test`- or `Benchmark`-marked names (not
`Example`), and filters with the specific testify sub-path patterns. -/
def findUsedImports (fn : FuncDecl) (allImports : List ImportSpec) :
    List ImportSpec :=
  let walked := collectExprsUsed fn.exprs
  let usedPackages :=
    if goStartsWith fn.name testMarker ||
       goStartsWith fn.name benchmarkMarker
    then testingPkg :: walked else walked
  allImports.filter (importIncludedSpecific usedPackages)

/-- Filter switch of `findUsedImportsInDecls` in splitter.go (first document,
lines 1006-1030): as the specific switch, but every testify case matches any
path containing `testify`, paired with each of the three short names. -/
def importIncludedGeneric (used : List GoStr) (imp : ImportSpec) : Bool :=
  let importPath := goTrimQuotes imp.pathValue
  let pkgName := importLocalName imp
  if importPath == testingPkg && used.contains testingPkg then
    true
  else if used.contains pkgName then true
  else if goContains importPath testifyPath &&
      used.contains assertName then true
  else if goContains importPath testifyPath &&
      used.contains requireName then true
  else if goContains importPath testifyPath &&
      used.contains suiteName then true
  else false

/-- findUsedImportsInDecls of splitter.go (first document, lines 970-1033):
marks `testing` used when any declaration is test-style, walks all
declarations, and filters with the generic testify pattern. -/
def findUsedImportsInDecls (decls : List Decl) (allImports : List ImportSpec) :
    List ImportSpec :=
  let usedPackages :=
    (if decls.any declIsTestStyle then [testingPkg] else []) ++
    decls.flatMap declInspectUsed
  allImports.filter (importIncludedGeneric usedPackages)

end V1

/-- getCommonAbbreviations from naming_utils.go: abbreviations that are kept
as one word by the snake-case transform. -/
def getCommonAbbreviations : List GoStr :=
  [("ID".toList), ("UUID".toList), ("URL".toList), ("URI".toList),
   ("API".toList), ("HTTP".toList), ("HTTPS".toList), ("JSON".toList),
   ("XML".toList), ("CSV".toList),
   ("SQL".toList), ("DB".toList), ("TCP".toList), ("UDP".toList),
   ("IP".toList), ("DNS".toList), ("SSH".toList), ("TLS".toList),
   ("SSL".toList), ("JWT".toList),
   ("AWS".toList), ("GCP".toList), ("CPU".toList), ("GPU".toList),
   ("RAM".toList), ("ROM".toList), ("IO".toList), ("EOF".toList),
   ("TTL".toList), ("CDN".toList),
   ("HTML".toList), ("CSS".toList), ("JS".toList), ("MD5".toList),
   ("SHA".toList), ("RSA".toList), ("AES".toList), ("UTF".toList),
   ("ASCII".toList),
   ("CRUD".toList), ("REST".toList), ("RPC".toList), ("GRPC".toList),
   ("MQTT".toList), ("AMQP".toList), ("SMTP".toList), ("IMAP".toList),
   ("POP".toList),
   ("SDK".toList), ("CLI".toList), ("GUI".toList), ("UI".toList),
   ("UX".toList), ("OS".toList), ("VM".toList), ("PDF".toList),
   ("PNG".toList), ("JPG".toList), ("GIF".toList)]

/-- matchesAbbreviation from naming_utils.go: the first abbreviation of the
fixed list that matches at rune position `i` — in range, equal to the
uppercased slice, and ending at a word boundary (end of the name or an
uppercase rune). -/
def matchesAbbreviation (runes : GoStr) (i : Nat) : Option GoStr :=
  getCommonAbbreviations.find? (fun abbr =>
    decide (i + abbr.length ≤ runes.length) &&
    goToUpper ((runes.drop i).take abbr.length) == abbr &&
    (decide (i + abbr.length = runes.length) ||
     (decide (i + abbr.length < runes.length) &&
      unicodeIsUpper (runes.getD (i + abbr.length) (Char.ofNat 0)))))

/-- shouldAddUnderscore from naming_utils.go: whether an underscore is
inserted before the rune at position `i` (the call sites only use it with
`i < runes.length`; the default character of the out-of-range lookup is
never read there). -/
def shouldAddUnderscore (runes : GoStr) (i : Nat) (result : GoStr) : Bool :=
  if decide (i = 0) || (!(unicodeIsUpper (runes.getD i (Char.ofNat 0)))) then
    false
  else if decide (result.length = 0) || result.getLastD (Char.ofNat 0) == '_'
  then false
  else if decide (i + 1 < runes.length) &&
      unicodeIsLower (runes.getD (i + 1) (Char.ofNat 0)) then true
  else if decide (0 < i) && unicodeIsLower (runes.getD (i - 1) (Char.ofNat 0))
  then true
  else false

/-- Character-by-character loop shared by the snake-case transforms.  The Go
`for` loop advances `i` by at least one per iteration, so a fuel of
`runes.length` steps (each call site passes exactly that, with `i = 0`) is
never exhausted; the fuel only makes the recursion structural. -/
def snakeLoop (runes : GoStr) : Nat → Nat → GoStr → GoStr
  | 0, _, result => result
  | fuel + 1, i, result =>
    if i < runes.length then
      match matchesAbbreviation runes i with
      | some abbr =>
          let result1 :=
            if decide (0 < i) && decide (0 < result.length) &&
               (!(result.getLastD (Char.ofNat 0) == '_'))
            then result ++ ['_'] else result
          snakeLoop runes fuel (i + abbr.length) (result1 ++ goToLower abbr)
      | none =>
          let r := runes.getD i (Char.ofNat 0)
          let result1 :=
            if shouldAddUnderscore runes i result then result ++ ['_']
            else result
          snakeLoop runes fuel (i + 1) (result1 ++ [unicodeToLower r])
    else result

/-- testNameToSnakeCase from naming_utils.go: lowers non-`Test` names
directly; otherwise strips the marker and leading underscores, maps an empty
or all-abbreviation remainder specially, and runs the character loop. -/
def testNameToSnakeCase (name : GoStr) : GoStr :=
  if !(goStartsWith name testMarker) then goToLower name
  else
    let name1 := goTrimLeftUnderscores (goTrimFront name testMarker)
    if name1 == [] then testStem
    else if getCommonAbbreviations.any (fun abbr => goToUpper name1 == abbr)
    then goToLower name1
    else
      let resultStr := snakeLoop name1 name1.length 0 []
      if resultStr == [] then testStem else resultStr

/-- Output filename computation of `processTestFile` for one extracted test:
the snake-case stem plus the test-file suffix, with the single collision
check against the original file's base name. -/
def outputFileNameFor (origBase : GoStr) (testName : GoStr) : GoStr :=
  let f := testNameToSnakeCase testName ++ testFileSuffix
  if f == origBase then splittedMark ++ f else f

/-- Output file names written by `processTestFile`, one per extracted test in
order (paths are relative to the output directory; the original file's base
name is the only collision ever checked). -/
def processTestFileWrites (origBase : GoStr) (node : File) : List GoStr :=
  ((extractTestFunctions node).1).map
    (fun t => outputFileNameFor origBase t.name)

/-- Preceding-declaration end position as the attribution claim describes it:
0 when the function is the first declaration, else the effective end of the
entry just before index `i`. -/
def prevEndAt (allDecls : List Decl) (i : Nat) : Int :=
  if i = 0 then 0 else
    match allDecls.get? (i - 1) with
    | some d => prevDeclEndOf d
    | none => 0

/-- Declarations the extractor's walk counts towards `hasRemainingContent`:
generic declaration groups (import declarations included) and receiver-less
functions that are not selected (a name without the `Test` marker, or a
skipped remainder); functions with a receiver never count. -/
def contributesRemaining : Decl → Bool
  | .genDecl _ => true
  | .funcDecl fn =>
      fn.recv.isNone &&
      ((!(goStartsWith fn.name testMarker)) || remainderSkipped fn.name)

/-- Names of the function declarations (methods included) of a list, in
order. -/
def funcDeclNames (decls : List Decl) : List GoStr :=
  decls.filterMap (fun d =>
    match d with
    | .funcDecl f => some f.name
    | .genDecl _ => none)

/-- Keep condition realised entry-wise by the removal loop: a function
declaration survives when its name is not among the extracted names, a
generic declaration survives when it is not an import declaration. -/
def removalKeeps (extractedNames : List GoStr) : Decl → Bool
  | .funcDecl fn => !(extractedNames.contains fn.name)
  | .genDecl g => !(g.tok == GenTok.importTok)

/-- Boolean form of "no function declaration of the file owns this comment":
for every function declaration, the comment is not its doc comment, is not
attributed to it as a standalone comment, and does not lie inside its body. -/
def commentUnowned (node : File) (cg : CommentGroup) : Bool :=
  node.decls.all (fun d =>
    match d with
    | .funcDecl fn =>
        (!(match fn.doc with
           | some dc => dc == cg.cid
           | none => false)) &&
        (!(isTestSpecificComment cg fn node.decls)) &&
        (!(insideFnBody cg fn))
    | .genDecl _ => true)

/-- Example method: a receiver method named like a test function. -/
def exC1Method : FuncDecl :=
  { fid := 1, name := ("TestFoo".toList), recv := some ("R".toList), pos := 10,
    declEnd := 90, doc := none, body := some { lbrace := 50, rbrace := 90 },
    exprs := [] }

/-- Example qualifying test function sharing the method's name. -/
def exC1Fn : FuncDecl :=
  { fid := 2, name := ("TestFoo".toList), recv := none, pos := 100,
    declEnd := 200, doc := none, body := some { lbrace := 150, rbrace := 200 },
    exprs := [] }

/-- Example file containing a method and a top-level test function that share
the name `TestFoo` (legal in Go: methods live in their receiver type's
namespace). -/
def exC1File : File :=
  { pkgName := ("p".toList),
    decls := [Decl.funcDecl exC1Method, Decl.funcDecl exC1Fn],
    comments := [], imports := [] }

/-- Example helper function without a receiver. -/
def exC1wHelper : FuncDecl :=
  { fid := 1, name := ("helper".toList), recv := none, pos := 10,
    declEnd := 90, doc := none, body := some { lbrace := 50, rbrace := 90 },
    exprs := [] }

/-- Example qualifying test function. -/
def exC1wTest : FuncDecl :=
  { fid := 2, name := ("TestBar".toList), recv := none, pos := 100,
    declEnd := 200, doc := none, body := some { lbrace := 150, rbrace := 200 },
    exprs := [] }

/-- Example file with a helper and one qualifying test, all names distinct. -/
def exC1wFile : File :=
  { pkgName := ("p".toList),
    decls := [Decl.funcDecl exC1wHelper, Decl.funcDecl exC1wTest],
    comments := [], imports := [] }

/-- Example method that is not selected by the extractor. -/
def exC2Method : FuncDecl :=
  { fid := 1, name := ("Helper".toList), recv := some ("R".toList), pos := 10,
    declEnd := 90, doc := none, body := some { lbrace := 50, rbrace := 90 },
    exprs := [] }

/-- Example qualifying test next to the method. -/
def exC2Fn : FuncDecl :=
  { fid := 2, name := ("TestBar".toList), recv := none, pos := 100,
    declEnd := 200, doc := none, body := some { lbrace := 150, rbrace := 200 },
    exprs := [] }

/-- Example file whose only unselected declaration is a method. -/
def exC2File : File :=
  { pkgName := ("p".toList),
    decls := [Decl.funcDecl exC2Method, Decl.funcDecl exC2Fn],
    comments := [], imports := [] }

/-- Example import declaration group. -/
def exC2ImpGen : GenDecl :=
  { gid := 3, tok := GenTok.importTok, pos := 1, declEnd := 5, exprs := [] }

/-- Example file whose declarations are an import group and one qualifying
test. -/
def exC2ImpFile : File :=
  { pkgName := ("p".toList),
    decls := [Decl.genDecl exC2ImpGen, Decl.funcDecl exC2Fn],
    comments := [], imports := [] }

/-- Example test function whose name continues with a digit after the
marker. -/
def exC3Fn : FuncDecl :=
  { fid := 1, name := ("Test1".toList), recv := none, pos := 10,
    declEnd := 90, doc := none, body := some { lbrace := 50, rbrace := 90 },
    exprs := [] }

/-- Example file containing only the digit-remainder test function. -/
def exC3File : File :=
  { pkgName := ("p".toList), decls := [Decl.funcDecl exC3Fn],
    comments := [], imports := [] }

/-- Example first function of the attribution witness file. -/
def exC4Prev : FuncDecl :=
  { fid := 1, name := ("alpha".toList), recv := none, pos := 10,
    declEnd := 90, doc := none, body := some { lbrace := 50, rbrace := 90 },
    exprs := [] }

/-- Example second function of the attribution witness file. -/
def exC4Fn : FuncDecl :=
  { fid := 2, name := ("Beta".toList), recv := none, pos := 200,
    declEnd := 300, doc := none, body := some { lbrace := 250, rbrace := 300 },
    exprs := [] }

/-- Example comment between the two functions, closer to the second. -/
def exC4Cg : CommentGroup := { cid := 7, pos := 180, endPos := 195 }

/-- Example declaration list of the attribution witness. -/
def exC4Decls : List Decl := [Decl.funcDecl exC4Prev, Decl.funcDecl exC4Fn]

/-- Example doc comment of the extracted test of the comment-filter witness. -/
def exC5Doc : CommentGroup := { cid := 3, pos := 95, endPos := 99 }

/-- Example unowned comment far before everything. -/
def exC5Far : CommentGroup := { cid := 4, pos := -9000, endPos := -8990 }

/-- Example extracted test function carrying a doc comment. -/
def exC5Fn : FuncDecl :=
  { fid := 1, name := ("TestBaz".toList), recv := none, pos := 100,
    declEnd := 200, doc := some 3, body := some { lbrace := 150, rbrace := 200 },
    exprs := [] }

/-- Example helper keeping the file non-empty. -/
def exC5Helper : FuncDecl :=
  { fid := 2, name := ("helper".toList), recv := none, pos := 300,
    declEnd := 400, doc := none, body := some { lbrace := 350, rbrace := 400 },
    exprs := [] }

/-- Example file of the comment-filter witness: an extracted test with a doc
comment, a helper, and an unowned comment. -/
def exC5File : File :=
  { pkgName := ("p".toList),
    decls := [Decl.funcDecl exC5Fn, Decl.funcDecl exC5Helper],
    comments := [exC5Doc, exC5Far], imports := [] }

/-- Example example-style function (name marked `Example`). -/
def exC7Fn : FuncDecl :=
  { fid := 1, name := ("ExampleFoo".toList), recv := none, pos := 10,
    declEnd := 90, doc := none, body := some { lbrace := 50, rbrace := 90 },
    exprs := [] }

/-- Example `testing` import spec. -/
def testingImp : ImportSpec :=
  { specName := none, pathValue := ("\"testing\"".toList) }

/-- Example testify import spec (the require package). -/
def requireImp : ImportSpec :=
  { specName := none,
    pathValue := ("\"github.com/stretchr/testify/require\"".toList) }

/-- Example test-marked function for the import-resolver witness. -/
def exC7wFn : FuncDecl :=
  { fid := 1, name := ("TestFoo".toList), recv := none, pos := 10,
    declEnd := 90, doc := none, body := some { lbrace := 50, rbrace := 90 },
    exprs := [] }

/-- Example file whose declarations are all extracted. -/
def exC8File : File :=
  { pkgName := ("p".toList), decls := [Decl.funcDecl exC1wTest],
    comments := [], imports := [] }

/-- Example test function whose stem collides with its sibling's. -/
def exC10FnA : FuncDecl :=
  { fid := 1, name := ("TestFooBar".toList), recv := none, pos := 10,
    declEnd := 90, doc := none, body := some { lbrace := 50, rbrace := 90 },
    exprs := [] }

/-- Example sibling test function with an underscored name. -/
def exC10FnB : FuncDecl :=
  { fid := 2, name := ("TestFoo_Bar".toList), recv := none, pos := 100,
    declEnd := 200, doc := none, body := some { lbrace := 150, rbrace := 200 },
    exprs := [] }

/-- Example file containing the two colliding test functions. -/
def exC10File : File :=
  { pkgName := ("p".toList),
    decls := [Decl.funcDecl exC10FnA, Decl.funcDecl exC10FnB],
    comments := [], imports := [] }

/-- Unfolding lemma: the removal loop is a filter by `removalKeeps`, and its
flag is exactly non-emptiness of the filtered list. -/
theorem removeExtractedTestsLoop_eq (names : List GoStr) (ds : List Decl) :
    removeExtractedTestsLoop names ds =
      (ds.filter (removalKeeps names), !(ds.filter (removalKeeps names)).isEmpty) := by
  induction ds with
  | nil => rfl
  | cons d rest ih =>
    cases d with
    | funcDecl fn =>
      simp only [removeExtractedTestsLoop, ih, List.filter_cons, removalKeeps]
      by_cases hc : fn.name ∈ names
      · simp [hc]
      · simp [hc]
    | genDecl g =>
      simp only [removeExtractedTestsLoop, ih, List.filter_cons, removalKeeps]
      by_cases hc : (g.tok == GenTok.importTok) = true
      · simp [hc]
      · simp [hc]

/-- Provenance lemma: every selected test function comes from a declaration
of the walked list, carries that declaration's data, and satisfies the
selection conditions. -/
theorem extractTestFunctionsLoop_facts (node : File) (ds : List Decl) :
    ∀ t ∈ (extractTestFunctionsLoop node ds).1,
      Decl.funcDecl t.funcDecl ∈ ds ∧ t.name = t.funcDecl.name ∧
      t.comments = t.funcDecl.doc ∧
      t.standaloneComments = standaloneCommentsFor node t.funcDecl ∧
      t.imports = node.imports ∧ t.pkg = node.pkgName ∧
      t.funcDecl.recv = none ∧
      goStartsWith t.funcDecl.name testMarker = true ∧
      remainderSkipped t.funcDecl.name = false := by
  induction ds with
  | nil => intro t ht; simp [extractTestFunctionsLoop] at ht
  | cons d rest ih =>
    intro t ht
    cases d with
    | genDecl g =>
      simp only [extractTestFunctionsLoop] at ht
      obtain ⟨h1, h2⟩ := ih t ht
      exact ⟨List.mem_cons_of_mem _ h1, h2⟩
    | funcDecl fn =>
      simp only [extractTestFunctionsLoop] at ht
      by_cases hc1 : ((!(goStartsWith fn.name testMarker)) ||
          fn.recv.isSome) = true
      · rw [if_pos hc1] at ht
        by_cases hc2 : fn.recv.isNone = true
        · rw [if_pos hc2] at ht
          obtain ⟨h1, h2⟩ := ih t ht
          exact ⟨List.mem_cons_of_mem _ h1, h2⟩
        · rw [if_neg hc2] at ht
          obtain ⟨h1, h2⟩ := ih t ht
          exact ⟨List.mem_cons_of_mem _ h1, h2⟩
      · rw [if_neg hc1] at ht
        by_cases hc3 : remainderSkipped fn.name = true
        · rw [if_pos hc3] at ht
          obtain ⟨h1, h2⟩ := ih t ht
          exact ⟨List.mem_cons_of_mem _ h1, h2⟩
        · rw [if_neg hc3] at ht
          rcases List.mem_cons.mp ht with hh | hh
          · subst hh
            have hb : (!(goStartsWith fn.name testMarker)) = false ∧
                fn.recv.isSome = false := by
              have := (Bool.or_eq_false_iff).mp (Bool.not_eq_true _ ▸ hc1 :
                ((!(goStartsWith fn.name testMarker)) ||
                  fn.recv.isSome) = false)
              exact this
            refine ⟨List.mem_cons_self _ _, rfl, rfl, rfl, rfl, rfl, ?_, ?_, ?_⟩
            · exact Option.not_isSome_iff_eq_none.mp (by simp [hb.2])
            · simpa using hb.1
            · simpa using hc3
          · obtain ⟨h1, h2⟩ := ih t hh
            exact ⟨List.mem_cons_of_mem _ h1, h2⟩

/-- Completeness lemma: every receiver-less declaration with a qualifying
test name gives rise to a selected test function. -/
theorem extractTestFunctionsLoop_complete (node : File) (ds : List Decl)
    (fn : FuncDecl) (hmem : Decl.funcDecl fn ∈ ds) (hrecv : fn.recv = none)
    (hstart : goStartsWith fn.name testMarker = true)
    (hskip : remainderSkipped fn.name = false) :
    ∃ t ∈ (extractTestFunctionsLoop node ds).1, t.funcDecl = fn := by
  induction ds with
  | nil => cases hmem
  | cons d rest ih =>
    rcases List.mem_cons.mp hmem with h | h
    · subst h
      simp only [extractTestFunctionsLoop, hstart, hrecv, hskip]
      exact ⟨_, List.mem_cons_self _ _, rfl⟩
    · obtain ⟨t, ht, hteq⟩ := ih h
      cases d with
      | genDecl g =>
        exact ⟨t, ht, hteq⟩
      | funcDecl f2 =>
        simp only [extractTestFunctionsLoop]
        split
        · split
          · exact ⟨t, ht, hteq⟩
          · exact ⟨t, ht, hteq⟩
        · split
          · exact ⟨t, ht, hteq⟩
          · exact ⟨t, List.mem_cons_of_mem _ ht, hteq⟩

/-- Flag lemma: the `hasRemainingContent` flag computed by the extraction
loop is exactly "some declaration contributes remaining content". -/
theorem extractTestFunctionsLoop_flag (node : File) (ds : List Decl) :
    (extractTestFunctionsLoop node ds).2 = ds.any contributesRemaining := by
  induction ds with
  | nil => rfl
  | cons d rest ih =>
    cases d with
    | genDecl g => simp [extractTestFunctionsLoop, contributesRemaining]
    | funcDecl fn =>
      simp only [extractTestFunctionsLoop, List.any_cons, contributesRemaining]
      cases hrr : fn.recv with
      | some a =>
        by_cases hs : goStartsWith fn.name testMarker = true
        · simp [hrr, hs, ih]
        · simp [hrr, Bool.not_eq_true _ ▸ hs, ih]
      | none =>
        by_cases hs : goStartsWith fn.name testMarker = true
        · by_cases hk : remainderSkipped fn.name = true
          · simp [hrr, hs, hk, ih]
          · simp [hrr, hs, Bool.not_eq_true _ ▸ hk, ih]
        · simp [hrr, Bool.not_eq_true _ ▸ hs, ih]

/-- C6: the import subset returned by the resolver (`findUsedImports` and
`findUsedImportsInDecls`, in each of their variants) is a subsequence of the
input import list: it preserves the relative order of `allImports` and never
contains an import spec absent from it. -/
theorem import_subset_sublist (fn : FuncDecl) (ds : List Decl)
    (imps : List ImportSpec) :
    List.Sublist (P2.findUsedImports fn imps) imps ∧
    List.Sublist (P2.findUsedImportsInDecls ds imps) imps ∧
    List.Sublist (V1.findUsedImports fn imps) imps ∧
    List.Sublist (V1.findUsedImportsInDecls ds imps) imps ∧
    List.Sublist (findUsedImports fn imps) imps ∧
    List.Sublist (findUsedImportsInDecls ds imps) imps :=
  ⟨List.filter_sublist imps, List.filter_sublist imps, List.filter_sublist imps,
   List.filter_sublist imps, List.filter_sublist imps, List.filter_sublist imps⟩

/-- C9: import resolution is deterministic — two runs of `findUsedImports`
on the same declaration subtree and import list return the same subset — and
moreover idempotent as an operation on the import list. -/
theorem import_resolution_deterministic (fn : FuncDecl)
    (imps : List ImportSpec) :
    P2.findUsedImports fn imps = P2.findUsedImports fn imps ∧
    V1.findUsedImports fn imps = V1.findUsedImports fn imps ∧
    findUsedImports fn imps = findUsedImports fn imps ∧
    P2.findUsedImports fn (P2.findUsedImports fn imps) =
      P2.findUsedImports fn imps ∧
    V1.findUsedImports fn (V1.findUsedImports fn imps) =
      V1.findUsedImports fn imps ∧
    findUsedImports fn (findUsedImports fn imps) = findUsedImports fn imps := by
  refine ⟨rfl, rfl, rfl, ?_, ?_, ?_⟩ <;>
    · show List.filter _ (List.filter _ _) = _
      rw [List.filter_filter]
      exact List.filter_congr (fun a _ => Bool.and_self _)

/-- C8: when the extractor selected at least one test and the remaining
declaration list after filtering is empty, the original file is deleted, not
rewritten: `processTestFileAction` ends in `deletedFile` (in particular a
file whose every declaration is extracted is deleted, never rewritten
empty). -/
theorem delete_when_no_remaining (node : File)
    (h1 : (extractTestFunctions node).1 ≠ [])
    (h2 : remainingDecls node = []) :
    processTestFileAction node = FileAction.deletedFile := by
  unfold processTestFileAction
  simp only [List.isEmpty_iff, h1, if_false]
  by_cases hflag : (extractTestFunctions node).2
  · simp only [hflag, Bool.not_true, if_false, Bool.false_eq_true]
    unfold removeExtractedTests
    have : (removeExtractedTestsLoop
        (((extractTestFunctions node).1).map (fun t => t.name)) node.decls).1
        = [] := h2
    simp [this]
  · simp [Bool.not_eq_true _ ▸ hflag]

/-- C8 witness: a file whose single declaration is one qualifying test
function has a non-empty selection and an empty remaining list, and the model
deletes the original file. -/
theorem delete_when_no_remaining_witness :
    processTestFileAction exC8File = FileAction.deletedFile :=
  delete_when_no_remaining exC8File
    (List.cons_ne_nil _ _) rfl

/-- C10: derived output filenames of different tests from one file are never
checked against each other: `TestFooBar` and `TestFoo_Bar` are distinct
qualifying names with the same snake-case stem, so `processTestFile` writes
both units to the same output path (the later write overwrites the earlier
one), while the only collision ever rewritten is equality with the original
file's own base name. -/
theorem filename_collision_overwrite :
    ("TestFooBar".toList ≠ ("TestFoo_Bar".toList)) ∧
    testNameToSnakeCase ("TestFooBar".toList) =
      testNameToSnakeCase ("TestFoo_Bar".toList) ∧
    remainderSkipped ("TestFooBar".toList) = false ∧
    remainderSkipped ("TestFoo_Bar".toList) = false ∧
    processTestFileWrites ("x_test.go".toList) exC10File =
      [("foo_bar_test.go".toList), ("foo_bar_test.go".toList)] ∧
    outputFileNameFor ("foo_bar_test.go".toList) ("TestFooBar".toList) =
      ("splitted_foo_bar_test.go".toList) := by
  refine ⟨by decide, by decide, by decide, by decide, by decide, by decide⟩

/-- C2 (amended): the `hasRemainingContent` flag is true exactly when some
declaration contributes remaining content — any generic declaration group
(import declarations included) or any receiver-less function that is not
selected; and contributing declarations are indeed never selected.  (The
original claim fails: a method is a declaration that is never selected yet
never sets the flag.) -/
theorem hasRemainingContent_characterisation (node : File) :
    (extractTestFunctions node).2 = node.decls.any contributesRemaining ∧
    (∀ d ∈ node.decls, contributesRemaining d = true →
      d ∉ extractedDecls node) := by
  constructor
  · exact extractTestFunctionsLoop_flag node node.decls
  · intro d hd hc hmem
    obtain ⟨t, ht, hteq⟩ := List.mem_map.mp hmem
    obtain ⟨_h1, _h2, _h3, _h4, _h5, _h6, h7, h8, h9⟩ :=
      extractTestFunctionsLoop_facts node node.decls t ht
    subst hteq
    simp [contributesRemaining, h7, h8, h9] at hc

/-- C2 counterexample: in `exC2File` the method `Helper` is a declaration
that is not selected, yet the extractor's `hasRemainingContent` flag is
false; conversely in `exC2ImpFile` the flag is true although the only
declaration besides the selected test is an import declaration group — both
refute "true iff the file contains a declaration (function, group, or
unmatched test function) that is not selected". -/
theorem hasRemainingContent_claim_cex :
    ((extractTestFunctions exC2File).2 = false ∧
     Decl.funcDecl exC2Method ∈ exC2File.decls ∧
     Decl.funcDecl exC2Method ∉ extractedDecls exC2File) ∧
    ((extractTestFunctions exC2ImpFile).2 = true ∧
     exC2ImpFile.decls = [Decl.genDecl exC2ImpGen, Decl.funcDecl exC2Fn] ∧
     exC2ImpGen.tok = GenTok.importTok ∧
     extractedDecls exC2ImpFile = [Decl.funcDecl exC2Fn]) := by
  refine ⟨⟨rfl, List.mem_cons_self _ _, ?_⟩, rfl, rfl, rfl, rfl⟩
  have h : extractedDecls exC2File = [Decl.funcDecl exC2Fn] := rfl
  rw [h]
  intro hmem
  have heq := List.mem_singleton.mp hmem
  simp [exC2Method, exC2Fn] at heq

/-- C2 witness: the characterisation applied to a concrete file with a
helper function and one qualifying test. -/
theorem hasRemainingContent_characterisation_witness :
    ((extractTestFunctions exC1wFile).2 =
      exC1wFile.decls.any contributesRemaining) ∧
    Decl.funcDecl exC1wHelper ∉ extractedDecls exC1wFile :=
  ⟨(hasRemainingContent_characterisation exC1wFile).1,
   (hasRemainingContent_characterisation exC1wFile).2 _
     (List.mem_cons_self _ _) (by decide)⟩

/-- C3 (amended): the extractor selects exactly the top-level receiver-less
functions whose name carries the `Test` marker and whose remainder, after
stripping the marker and any leading underscores, is non-empty and does not
begin with a lowercase letter; a receiver-less `Test`-marked function whose
remainder is empty or starts lowercase is never selected and sets the
`hasRemainingContent` flag.  (The original claim requires the remainder to
begin with an uppercase letter; a digit also qualifies.) -/
theorem test_selection_characterisation (node : File) :
    (∀ t ∈ (extractTestFunctions node).1,
       Decl.funcDecl t.funcDecl ∈ node.decls ∧ t.name = t.funcDecl.name ∧
       t.funcDecl.recv = none ∧
       goStartsWith t.funcDecl.name testMarker = true ∧
       nameAfterTest t.funcDecl.name ≠ [] ∧
       unicodeIsLower ((nameAfterTest t.funcDecl.name).headD (Char.ofNat 0)) =
         false) ∧
    (∀ fn : FuncDecl, Decl.funcDecl fn ∈ node.decls → fn.recv = none →
       goStartsWith fn.name testMarker = true →
       remainderSkipped fn.name = false →
       Decl.funcDecl fn ∈ extractedDecls node) ∧
    (∀ fn : FuncDecl, Decl.funcDecl fn ∈ node.decls → fn.recv = none →
       goStartsWith fn.name testMarker = true →
       remainderSkipped fn.name = true →
       (extractTestFunctions node).2 = true) := by
  refine ⟨?_, ?_, ?_⟩
  · intro t ht
    obtain ⟨h1, h2, _h3, _h4, _h5, _h6, h7, h8, h9⟩ :=
      extractTestFunctionsLoop_facts node node.decls t ht
    have h9' := h9
    simp only [remainderSkipped, Bool.or_eq_false_iff, decide_eq_false_iff_not]
      at h9'
    refine ⟨h1, h2, h7, h8, ?_, h9'.2⟩
    intro hnil
    exact h9'.1 (by simp [hnil])
  · intro fn hmem hrecv hstart hskip
    obtain ⟨t, ht, hteq⟩ :=
      extractTestFunctionsLoop_complete node node.decls fn hmem hrecv hstart
        hskip
    exact List.mem_map.mpr ⟨t, ht, by rw [hteq]⟩
  · intro fn hmem hrecv hstart hskip
    show (extractTestFunctionsLoop node node.decls).2 = true
    rw [extractTestFunctionsLoop_flag]
    exact List.any_eq_true.mpr
      ⟨_, hmem, by simp [contributesRemaining, hrecv, hstart, hskip]⟩

/-- C3 counterexample: `Test1` has a non-empty remainder `1` that does not
begin with an uppercase letter, yet it is selected (and does not set the
flag) — refuting "a name whose remainder does not begin with an uppercase
letter is never selected". -/
theorem test_selection_claim_cex :
    unicodeIsUpper ((nameAfterTest exC3Fn.name).headD (Char.ofNat 0)) =
      false ∧
    nameAfterTest exC3Fn.name ≠ [] ∧
    Decl.funcDecl exC3Fn ∈ extractedDecls exC3File ∧
    (extractTestFunctions exC3File).2 = false := by
  refine ⟨by decide, by decide, ?_, rfl⟩
  have h : extractedDecls exC3File = [Decl.funcDecl exC3Fn] := rfl
  rw [h]
  exact List.mem_singleton.mpr rfl

/-- C3 witness: the characterisation applied to a concrete file where
`TestBar` qualifies. -/
theorem test_selection_characterisation_witness :
    Decl.funcDecl exC1wTest ∈ extractedDecls exC1wFile :=
  (test_selection_characterisation exC1wFile).2.1 exC1wTest
    (List.mem_cons_of_mem _ (List.mem_cons_self _ _)) rfl (by decide)
    (by decide)

/-- Membership lemma: the name of a function declaration of a list is among
the list's function-declaration names. -/
theorem funcDeclName_mem {ds : List Decl} {a : FuncDecl}
    (ha : Decl.funcDecl a ∈ ds) : a.name ∈ funcDeclNames ds :=
  List.mem_filterMap.mpr ⟨Decl.funcDecl a, ha, rfl⟩

/-- Injectivity lemma: when the function-declaration names of a list are
pairwise distinct, two function declarations of the list with the same name
are equal. -/
theorem funcDecl_name_inj {ds : List Decl} (h : (funcDeclNames ds).Nodup)
    {a b : FuncDecl} (ha : Decl.funcDecl a ∈ ds) (hb : Decl.funcDecl b ∈ ds)
    (hname : a.name = b.name) : a = b := by
  induction ds with
  | nil => cases ha
  | cons d rest ih =>
    cases d with
    | genDecl g =>
      have h' : (funcDeclNames rest).Nodup := by
        simpa [funcDeclNames, List.filterMap_cons] using h
      rcases List.mem_cons.mp ha with hh | hh
      · cases hh
      · rcases List.mem_cons.mp hb with hh2 | hh2
        · cases hh2
        · exact ih h' hh hh2
    | funcDecl f =>
      have hcons : (f.name :: funcDeclNames rest).Nodup := by
        simpa [funcDeclNames, List.filterMap_cons] using h
      have hnm := List.nodup_cons.mp hcons
      rcases List.mem_cons.mp ha with hh | hh <;>
        rcases List.mem_cons.mp hb with hh2 | hh2
      · rw [Decl.funcDecl.inj hh, Decl.funcDecl.inj hh2]
      · exfalso
        have haf : a = f := Decl.funcDecl.inj hh
        have hb' : b.name ∈ funcDeclNames rest := funcDeclName_mem hh2
        rw [← hname, haf] at hb'
        exact hnm.1 hb'
      · exfalso
        have hbf : b = f := Decl.funcDecl.inj hh2
        have ha' : a.name ∈ funcDeclNames rest := funcDeclName_mem hh
        rw [hname, hbf] at ha'
        exact hnm.1 ha' 
      · exact ih hnm.2 hh hh2

/-- C1 (amended): provided no two function declarations of the file
(methods included) share a name, the declarations selected for extraction
and the declarations kept by the removal filter partition the non-import
declarations: every non-import declaration lands in exactly one of the two
sets and both sets consist of non-import declarations.  (The original claim
fails when a method shares its name with an extracted test: the name-based
removal also drops the method.) -/
theorem partition_of_declarations (node : File)
    (hnames : (funcDeclNames node.decls).Nodup) :
    (∀ d ∈ nonImportDecls node,
       d ∈ extractedDecls node ∨ d ∈ remainingDecls node) ∧
    (∀ d ∈ extractedDecls node, d ∉ remainingDecls node) ∧
    (∀ d ∈ extractedDecls node, d ∈ nonImportDecls node) ∧
    (∀ d ∈ remainingDecls node, d ∈ nonImportDecls node) := by
  have hrem : remainingDecls node =
      node.decls.filter
        (removalKeeps (((extractTestFunctions node).1).map (fun t => t.name))) := by
    unfold remainingDecls
    rw [removeExtractedTestsLoop_eq]
  refine ⟨?_, ?_, ?_, ?_⟩
  · intro d hd
    obtain ⟨hdm, hdp⟩ := List.mem_filter.mp hd
    cases d with
    | genDecl g =>
      right
      rw [hrem]
      exact List.mem_filter.mpr ⟨hdm, by simpa [removalKeeps] using hdp⟩
    | funcDecl fn =>
      by_cases hc : fn.name ∈ ((extractTestFunctions node).1).map (fun t => t.name)
      · left
        obtain ⟨t, ht, htn⟩ := List.mem_map.mp hc
        obtain ⟨h1, h2, _⟩ := extractTestFunctionsLoop_facts node node.decls t ht
        have hfe : t.funcDecl = fn :=
          funcDecl_name_inj hnames h1 hdm (by rw [← h2]; exact htn)
        exact List.mem_map.mpr ⟨t, ht, by rw [hfe]⟩
      · right
        rw [hrem]
        refine List.mem_filter.mpr ⟨hdm, ?_⟩
        simpa [removalKeeps] using hc
  · intro d hde hdr
    obtain ⟨t, ht, hteq⟩ := List.mem_map.mp hde
    obtain ⟨h1, h2, _⟩ := extractTestFunctionsLoop_facts node node.decls t ht
    rw [hrem] at hdr
    obtain ⟨_, hkeep⟩ := List.mem_filter.mp hdr
    subst hteq
    simp only [removalKeeps, Bool.not_eq_true'] at hkeep
    exact absurd (List.mem_map.mpr ⟨t, ht, h2⟩)
      (by simpa [List.elem_iff] using hkeep)
  · intro d hde
    obtain ⟨t, ht, hteq⟩ := List.mem_map.mp hde
    obtain ⟨h1, _⟩ := extractTestFunctionsLoop_facts node node.decls t ht
    subst hteq
    exact List.mem_filter.mpr ⟨h1, rfl⟩
  · intro d hdr
    rw [hrem] at hdr
    obtain ⟨hdm, hkeep⟩ := List.mem_filter.mp hdr
    cases d with
    | funcDecl fn => exact List.mem_filter.mpr ⟨hdm, rfl⟩
    | genDecl g =>
      exact List.mem_filter.mpr ⟨hdm, by simpa [removalKeeps] using hkeep⟩

/-- C1 counterexample: in `exC1File` the method `TestFoo` is a non-import
declaration that lands in neither the extracted nor the remaining set (the
name-based removal drops it because the extracted top-level `TestFoo` shares
its name) — refuting the partition claim as stated. -/
theorem partition_claim_cex :
    Decl.funcDecl exC1Method ∈ nonImportDecls exC1File ∧
    Decl.funcDecl exC1Method ∉ extractedDecls exC1File ∧
    Decl.funcDecl exC1Method ∉ remainingDecls exC1File := by
  refine ⟨List.mem_filter.mpr ⟨List.mem_cons_self _ _, rfl⟩, ?_, ?_⟩
  · have h : extractedDecls exC1File = [Decl.funcDecl exC1Fn] := rfl
    rw [h]
    intro hm
    have heq := List.mem_singleton.mp hm
    simp [exC1Method, exC1Fn] at heq
  · have h : remainingDecls exC1File = [] := rfl
    rw [h]
    exact List.not_mem_nil _

/-- C1 witness: the partition applied to a concrete file with distinct
function names. -/
theorem partition_of_declarations_witness :
    (funcDeclNames exC1wFile.decls).Nodup ∧
    ((∀ d ∈ nonImportDecls exC1wFile,
        d ∈ extractedDecls exC1wFile ∨ d ∈ remainingDecls exC1wFile) ∧
     (∀ d ∈ extractedDecls exC1wFile, d ∉ remainingDecls exC1wFile) ∧
     (∀ d ∈ extractedDecls exC1wFile, d ∈ nonImportDecls exC1wFile) ∧
     (∀ d ∈ remainingDecls exC1wFile, d ∈ nonImportDecls exC1wFile)) :=
  ⟨by decide, partition_of_declarations exC1wFile (by decide)⟩

/-- Switch lemma: the specific filter switch accepts a `testing`-path import
whenever `testing` is in the used set. -/
theorem importIncludedSpecific_testing (used : List GoStr) (imp : ImportSpec)
    (hpath : goTrimQuotes imp.pathValue = testingPkg)
    (hc : used.contains testingPkg = true) :
    importIncludedSpecific used imp = true := by
  unfold importIncludedSpecific
  rw [hpath]
  simp
  exact Or.inl (List.elem_iff.mp hc)

/-- Switch lemma: the generic filter switch accepts a `testing`-path import
whenever `testing` is in the used set. -/
theorem importIncludedGeneric_testing (used : List GoStr) (imp : ImportSpec)
    (hpath : goTrimQuotes imp.pathValue = testingPkg)
    (hc : used.contains testingPkg = true) :
    V1.importIncludedGeneric used imp = true := by
  unfold V1.importIncludedGeneric
  rw [hpath]
  simp
  exact Or.inl (List.elem_iff.mp hc)

/-- Switch lemma: the generic filter switch accepts any import whose path
contains `testify` as soon as one of the three short names is in the used
set, regardless of which testify package the path denotes. -/
theorem importIncludedGeneric_testify (used : List GoStr) (imp : ImportSpec)
    (short : GoStr)
    (hc : goContains (goTrimQuotes imp.pathValue) testifyPath = true)
    (hs : short = assertName ∨ short = requireName ∨ short = suiteName)
    (hu : used.contains short = true) :
    V1.importIncludedGeneric used imp = true := by
  unfold V1.importIncludedGeneric
  simp
  rcases hs with h | h | h <;> subst h
  · exact Or.inr (Or.inr (Or.inl ⟨hc, List.elem_iff.mp hu⟩))
  · exact Or.inr (Or.inr (Or.inr (Or.inl ⟨hc, List.elem_iff.mp hu⟩)))
  · exact Or.inr (Or.inr (Or.inr (Or.inr ⟨hc, List.elem_iff.mp hu⟩)))

/-- C7 (amended): `findUsedImports` (splitter.go) marks the `testing` package
used for a function whose name carries the `Test` or `Benchmark` marker (not
`Example`), so the `testing`-path import is then always included;
`findUsedImportsInDecls` includes it whenever ANY declaration of the group
carries the `Test`, `Benchmark`, or `Example` marker; and in the group
resolver a testify import is included whenever its path merely contains
`testify` and any of the short names `assert`, `require`, `suite` was
referenced (the path pattern is not specific to the referenced package
there). -/
theorem testing_import_inclusion :
    (∀ (fn : FuncDecl) (imps : List ImportSpec) (imp : ImportSpec),
       (goStartsWith fn.name testMarker = true ∨
        goStartsWith fn.name benchmarkMarker = true) →
       imp ∈ imps → goTrimQuotes imp.pathValue = testingPkg →
       imp ∈ V1.findUsedImports fn imps) ∧
    (∀ (ds : List Decl) (imps : List ImportSpec) (imp : ImportSpec)
       (d : Decl),
       d ∈ ds → declIsTestStyle d = true →
       imp ∈ imps → goTrimQuotes imp.pathValue = testingPkg →
       imp ∈ V1.findUsedImportsInDecls ds imps) ∧
    (∀ (ds : List Decl) (imps : List ImportSpec) (imp : ImportSpec)
       (short : GoStr),
       imp ∈ imps →
       goContains (goTrimQuotes imp.pathValue) testifyPath = true →
       (short = assertName ∨ short = requireName ∨ short = suiteName) →
       (ds.flatMap declInspectUsed).contains short = true →
       imp ∈ V1.findUsedImportsInDecls ds imps) := by
  refine ⟨?_, ?_, ?_⟩
  · intro fn imps imp hpre himp hpath
    have hcond : (goStartsWith fn.name testMarker ||
        goStartsWith fn.name benchmarkMarker) = true := by
      rcases hpre with h | h <;> simp [h]
    have hpred : importIncludedSpecific
        (testingPkg :: collectExprsUsed fn.exprs) imp = true :=
      importIncludedSpecific_testing _ _ hpath
        (List.elem_iff.mpr (List.mem_cons_self _ _))
    have hstep : imp ∈ imps.filter (importIncludedSpecific
        (if goStartsWith fn.name testMarker ||
            goStartsWith fn.name benchmarkMarker
         then testingPkg :: collectExprsUsed fn.exprs
         else collectExprsUsed fn.exprs)) := by
      rw [if_pos hcond]
      exact List.mem_filter.mpr ⟨himp, hpred⟩
    exact hstep
  · intro ds imps imp d hd hstyle himp hpath
    have hany : ds.any declIsTestStyle = true :=
      List.any_eq_true.mpr ⟨d, hd, hstyle⟩
    have hpred : V1.importIncludedGeneric
        ([testingPkg] ++ ds.flatMap declInspectUsed) imp = true :=
      importIncludedGeneric_testing _ _ hpath
        (List.elem_iff.mpr (List.mem_append_left _ (List.mem_cons_self _ _)))
    have hstep : imp ∈ imps.filter (V1.importIncludedGeneric
        ((if ds.any declIsTestStyle then [testingPkg] else []) ++
          ds.flatMap declInspectUsed)) := by
      rw [if_pos hany]
      exact List.mem_filter.mpr ⟨himp, hpred⟩
    exact hstep
  · intro ds imps imp short himp hcontains hshort hused
    have hu : ((if ds.any declIsTestStyle then [testingPkg] else []) ++
        ds.flatMap declInspectUsed).contains short = true :=
      List.elem_iff.mpr (List.mem_append_right _ (List.elem_iff.mp hused))
    have hstep : imp ∈ imps.filter (V1.importIncludedGeneric
        ((if ds.any declIsTestStyle then [testingPkg] else []) ++
          ds.flatMap declInspectUsed)) :=
      List.mem_filter.mpr
        ⟨himp, importIncludedGeneric_testify _ _ _ hcontains hshort hu⟩
    exact hstep

/-- C7 counterexample: `ExampleFoo` is an example-style declaration, yet
`findUsedImports` does not include the `testing` import for it — refuting
"the resolver always includes the always-required import for
test/benchmark/example-style declarations" in the single-function path. -/
theorem testing_import_claim_cex :
    goStartsWith exC7Fn.name exampleMarker = true ∧
    testingImp ∈ ([testingImp] : List ImportSpec) ∧
    V1.findUsedImports exC7Fn [testingImp] = [] :=
  ⟨by decide, List.mem_singleton.mpr rfl, by decide⟩

/-- C7 witness: the amended inclusion rule applied to a concrete
`Test`-marked function, a concrete group, and a concrete testify import. -/
theorem testing_import_inclusion_witness :
    testingImp ∈ V1.findUsedImports exC7wFn [testingImp] ∧
    testingImp ∈ V1.findUsedImportsInDecls [Decl.funcDecl exC7wFn]
      [testingImp] ∧
    requireImp ∈ V1.findUsedImportsInDecls
      [Decl.funcDecl
        { exC7wFn with exprs := [Expr.ident assertName false] }]
      [requireImp] :=
  ⟨testing_import_inclusion.1 exC7wFn [testingImp] testingImp
     (Or.inl (by decide)) (List.mem_singleton.mpr rfl) (by decide),
   testing_import_inclusion.2.1 [Decl.funcDecl exC7wFn] [testingImp]
     testingImp (Decl.funcDecl exC7wFn) (List.mem_singleton.mpr rfl)
     (by decide) (List.mem_singleton.mpr rfl) (by decide),
   testing_import_inclusion.2.2
     [Decl.funcDecl { exC7wFn with exprs := [Expr.ident assertName false] }]
     [requireImp] requireImp assertName (List.mem_singleton.mpr rfl)
     (by decide) (Or.inl rfl) (by decide)⟩

/-- C5: after extraction, the remaining file's comment list contains no
comment attributed to an extracted declaration — its doc comment, its
standalone-owned comments, or its inline comments are all filtered out —
while a comment owned by no function declaration (unowned) stays. -/
theorem orphaned_comment_filtering (node : File) :
    (∀ t ∈ (extractTestFunctions node).1, ∀ cg : CommentGroup,
       (t.comments = some cg.cid ∨ cg ∈ t.standaloneComments ∨
        insideFnBody cg t.funcDecl = true) →
       cg ∉ filterOrphanedComments node
         (((extractTestFunctions node).1).map (fun t => t.name))) ∧
    (∀ cg ∈ node.comments, commentUnowned node cg = true →
       cg ∈ filterOrphanedComments node
         (((extractTestFunctions node).1).map (fun t => t.name))) := by
  constructor
  · intro t ht cg hown hmem
    obtain ⟨h1, h2, h3, h4, _⟩ :=
      extractTestFunctionsLoop_facts node node.decls t ht
    have hkeep : shouldKeepComment cg node
        (((extractTestFunctions node).1).map (fun t => t.name)) = true :=
      (List.mem_filter.mp hmem).2
    unfold shouldKeepComment at hkeep
    rw [Bool.not_eq_true'] at hkeep
    rw [List.any_eq_false] at hkeep
    have hcontains : ((((extractTestFunctions node).1).map
        (fun t => t.name)).contains t.funcDecl.name) = true :=
      List.elem_iff.mpr (List.mem_map.mpr ⟨t, ht, h2⟩)
    have hinner : ((match t.funcDecl.doc with
        | some dc => dc == cg.cid
        | none => false) ||
       isTestSpecificComment cg t.funcDecl node.decls ||
       insideFnBody cg t.funcDecl) = true := by
      rcases hown with h | h | h
      · have hdoc : t.funcDecl.doc = some cg.cid := by rw [← h3]; exact h
        simp [hdoc]
      · have hsc : cg ∈ standaloneCommentsFor node t.funcDecl := by
          rw [← h4]; exact h
        have hist := (Bool.and_eq_true_iff.mp (List.mem_filter.mp hsc).2).2
        simp [hist]
      · simp [h]
    exact hkeep _ h1 (by
      show ((((extractTestFunctions node).1).map
          (fun t => t.name)).contains t.funcDecl.name &&
        ((match t.funcDecl.doc with
          | some dc => dc == cg.cid
          | none => false) ||
         isTestSpecificComment cg t.funcDecl node.decls ||
         insideFnBody cg t.funcDecl)) = true
      rw [hcontains, hinner]
      rfl)
  · intro cg hcg hun
    refine List.mem_filter.mpr ⟨hcg, ?_⟩
    show shouldKeepComment cg node
      (((extractTestFunctions node).1).map (fun t => t.name)) = true
    unfold shouldKeepComment
    rw [Bool.not_eq_true']
    rw [List.any_eq_false]
    intro d hd
    cases d with
    | genDecl g => exact Bool.false_ne_true
    | funcDecl fn =>
      have hall : ((!(match fn.doc with
          | some dc => dc == cg.cid
          | none => false)) &&
         (!(isTestSpecificComment cg fn node.decls)) &&
         (!(insideFnBody cg fn))) = true := List.all_eq_true.mp hun _ hd
      have hp := Bool.and_eq_true_iff.mp hall
      have hpp := Bool.and_eq_true_iff.mp hp.1
      have hd1 : (match fn.doc with
          | some dc => dc == cg.cid
          | none => false) = false := by
        have := hpp.1
        rwa [Bool.not_eq_true'] at this
      have hd2 : isTestSpecificComment cg fn node.decls = false := by
        have := hpp.2
        rwa [Bool.not_eq_true'] at this
      have hd3 : insideFnBody cg fn = false := by
        have := hp.2
        rwa [Bool.not_eq_true'] at this
      intro hP
      have hP' : ((((extractTestFunctions node).1).map
          (fun t => t.name)).contains fn.name &&
        ((match fn.doc with
          | some dc => dc == cg.cid
          | none => false) ||
         isTestSpecificComment cg fn node.decls ||
         insideFnBody cg fn)) = true := hP
      rw [hd1, hd2, hd3] at hP'
      simp at hP' 

/-- C5 witness: applying the comment-filter theorem to a concrete file — the
extracted test's doc comment is removed from the remaining comment list, the
unowned far-away comment stays. -/
theorem orphaned_comment_filtering_witness :
    exC5Doc ∉ filterOrphanedComments exC5File
      (((extractTestFunctions exC5File).1).map (fun t => t.name)) ∧
    exC5Far ∈ filterOrphanedComments exC5File
      (((extractTestFunctions exC5File).1).map (fun t => t.name)) := by
  constructor
  · exact (orphaned_comment_filtering exC5File).1
      { name := exC5Fn.name, funcDecl := exC5Fn, comments := exC5Fn.doc,
        standaloneComments := standaloneCommentsFor exC5File exC5Fn,
        imports := exC5File.imports, pkg := exC5File.pkgName }
      (List.mem_singleton.mpr rfl) exC5Doc (Or.inl rfl)
  · exact (orphaned_comment_filtering exC5File).2 exC5Far
      (List.mem_cons_of_mem _ (List.mem_cons_self _ _)) (by decide)

/-- C4: for a comment group lying inside no function body and a function
present in the declaration list at index `i`, `isFunctionSpecificComment`
returns true precisely when the comment ends before the function's start,
starts after the nearest preceding declaration's end (taken as 0 for the
first declaration), is not strictly closer to that preceding end than the
function's start is to the comment's end (a check only performed when a
preceding declaration exists), and the gap to the function's start is below
the fixed `50*80` proximity bound; in particular a comment ending at or
after the function's start is never attributed. -/
theorem isFunctionSpecificComment_characterisation
    (cg : CommentGroup) (fn : FuncDecl) (allDecls : List Decl) (i : Nat)
    (hidx : allDecls.findIdx? (declIsFn fn) = some i)
    (hout : ∀ f : FuncDecl, Decl.funcDecl f ∈ allDecls →
      insideFnBody cg f = false)
    (hfn : insideFnBody cg fn = false) :
    (isFunctionSpecificComment cg fn allDecls = true ↔
      (cg.endPos < fn.pos ∧ prevEndAt allDecls i < cg.pos ∧
       (0 < i → ¬(cg.pos - prevEndAt allDecls i < fn.pos - cg.endPos)) ∧
       fn.pos - cg.endPos < (50 * 80 : Int))) ∧
    (fn.pos ≤ cg.endPos → isFunctionSpecificComment cg fn allDecls = false) := by
  have hany : (allDecls.any (fun d =>
      match d with
      | .funcDecl oF => (!(oF.fid == fn.fid)) && insideFnBody cg oF
      | .genDecl _ => false)) = false := by
    rw [List.any_eq_false]
    intro d hd
    cases d with
    | genDecl g => exact Bool.false_ne_true
    | funcDecl f =>
      intro hP
      have hP' : ((!(f.fid == fn.fid)) && insideFnBody cg f) = true := hP
      rw [hout f hd] at hP'
      simp at hP'
  refine ⟨?_, ?_⟩
  · unfold isFunctionSpecificComment
    rw [hfn, hany, hidx]
    by_cases hle : fn.pos ≤ cg.endPos
    · simp [hle]
    · have hlt : cg.endPos < fn.pos := by omega
      rcases Nat.eq_zero_or_pos i with hz | hp
      · subst hz
        simp only [prevEndAt, if_pos rfl]
        simp [hle]
        omega
      · have hil : i < allDecls.length := by
          obtain ⟨h, -⟩ := List.findIdx?_eq_some_iff_getElem.mp hidx
          exact h
        have hgl : i - 1 < allDecls.length := by omega
        obtain ⟨pd, hpd⟩ : ∃ pd, allDecls[i - 1]? = some pd :=
          ⟨_, List.getElem?_eq_getElem hgl⟩
        have hi0 : ¬(i = 0) := by omega
        have hpdg : allDecls.get? (i - 1) = some pd := by
          rw [List.get?_eq_getElem?]
          exact hpd
        have hpe : prevEndAt allDecls i = prevDeclEndOf pd := by
          simp only [prevEndAt, hi0, if_false, hpdg]
        rw [hpe]
        simp only [hi0, if_false, hpdg]
        by_cases hdist : cg.pos - prevDeclEndOf pd < fn.pos - cg.endPos
        · simp [hle, hdist]
          intros
          omega
        · simp [hle, hdist]
          intros
          omega
  · intro hle
    unfold isFunctionSpecificComment
    rw [hfn, hany, hidx]
    simp [hle]

/-- C4 witness: the characterisation applied to a concrete two-function file
with a comment between the functions that is closer to the second one. -/
theorem isFunctionSpecificComment_characterisation_witness :
    isFunctionSpecificComment exC4Cg exC4Fn exC4Decls = true :=
  ((isFunctionSpecificComment_characterisation exC4Cg exC4Fn exC4Decls 1
      (by decide)
      (by
        intro f hf
        rcases List.mem_cons.mp hf with h | h
        · cases Decl.funcDecl.inj h
          decide
        · rcases List.mem_cons.mp h with h2 | h2
          · cases Decl.funcDecl.inj h2
            decide
          · cases h2)
      (by decide)).1).mpr
    ⟨by decide, by decide, by decide, by decide⟩

end GoSplit
